import Mathlib

/-!
Verification development for the CRM-to-ERP transformer UI.

The definitions below are shallow embeddings of the TypeScript source:
* `ChatStream` embeds the streamed chat consumer of `src/ui/src/app/rules/page.tsx`
  (`handleSend`, `canSend`, `handleInputKeyDown`).
* `RuleEditor` embeds the rule editor's `save` from the `RuleEditor` component.
* `SchemaReadiness` embeds the `SchemaStore`/`SchemaStoreStatus` data model of
  `src/ui/src/lib/types.ts` together with a spec-modelled readiness endpoint.
* `RulesAI` embeds the request bodies built by `src/ui/src/lib/api.ts` together with a
  spec-modelled rule-mutation endpoint.

Strings on the wire are modelled as lists of characters (`Chars`); the platform's
`JSON.parse` is modelled as an abstract decoding parameter.
-/

namespace ChatStream

/-- Wire text, modelled at character granularity (the `TextDecoder` already
reassembles split UTF-8 sequences before the consumer sees them). -/
abbrev Chars := List Char

inductive Role where
  | user
  | assistant
deriving DecidableEq

structure ChatMessage where
  role : Role
  content : Chars
deriving DecidableEq

/-- The stream event union of `rules/page.tsx` (`StreamEvent`): `start`, `chunk{content}`,
`done{result?}`, `error{error?}`.  `content`/`error` may be absent in the JSON payload,
hence `Option`. -/
inductive StreamEvent where
  | start
  | chunk (content : Option Chars)
  | done
  | error (err : Option Chars)
deriving DecidableEq

/-- JavaScript `x || d` on an optional string: the default is taken when the field is
absent or the empty string (both falsy). -/
def jsOr (x : Option Chars) (d : Chars) : Chars :=
  match x with
  | some s => if s.isEmpty then d else s
  | none => d

/-- JavaScript `buffer.split("\n\n")` followed by `pop()`: leftmost non-overlapping
splitting on the blank-line delimiter, returning the complete frames and the
trailing remainder kept in the buffer. -/
def splitEvents : Chars → List Chars × Chars
  | [] => ([], [])
  | [c] => ([], [c])
  | c :: d :: rest =>
    if c = '\n' ∧ d = '\n' then
      let p := splitEvents rest
      ([] :: p.1, p.2)
    else
      let p := splitEvents (d :: rest)
      match p.1 with
      | e :: es => ((c :: e) :: es, p.2)
      | [] => ([], c :: p.2)

/-- Whether a character list contains two consecutive newlines (the frame delimiter). -/
def hasDelim : Chars → Bool
  | [] => false
  | [_] => false
  | c :: d :: rest => (decide (c = '\n') && decide (d = '\n')) || hasDelim (d :: rest)

/-- JavaScript `line.startsWith("data:")`. -/
def startsWithData (s : Chars) : Bool :=
  decide (s.take 5 = "data:".toList)

/-- JavaScript `String.prototype.trim`. -/
def trimChars (s : Chars) : Chars :=
  ((s.dropWhile Char.isWhitespace).reverse.dropWhile Char.isWhitespace).reverse

/-- The data-line extraction of `handleSend`: split the raw frame on newlines, trim each
line, find the first line starting with `data:`, drop the `data:` tag and trim. -/
def extractPayload (raw : Chars) : Option Chars :=
  match ((raw.splitOn '\n').map trimChars).find? startsWithData with
  | none => none
  | some line => some (trimChars (line.drop 5))

/-- The `setMessages` updater applied on a `chunk` event: append the chunk text to the
message at the assistant index, leaving the list unchanged when the index is absent. -/
def applyChunk (msgs : List ChatMessage) (idx : Nat) (piece : Chars) : List ChatMessage :=
  match msgs[idx]? with
  | some m => msgs.set idx { m with content := m.content ++ piece }
  | none => msgs

section Consumer

variable (decode : Chars → Option StreamEvent)

/-- Processing of one complete frame inside the event loop of `handleSend`:
frames with no data line, an empty payload, or an undecodable payload are skipped;
`chunk` appends (`event.content || ""`); `error` throws (`event.error || "Chat request
failed"`); `start` and `done` are ignored. -/
def processEvent (raw : Chars) (msgs : List ChatMessage) (idx : Nat) :
    Except Chars (List ChatMessage) :=
  match extractPayload raw with
  | none => .ok msgs
  | some payload =>
    if payload.isEmpty then .ok msgs
    else
      match decode payload with
      | none => .ok msgs
      | some (.chunk c) => .ok (applyChunk msgs idx (jsOr c []))
      | some (.error e) => .error (jsOr e "Chat request failed".toList)
      | some _ => .ok msgs

/-- The `for (const rawEvent of events)` loop: a thrown error aborts the loop and carries
the message state current at the throw. -/
def processEvents (raws : List Chars) (msgs : List ChatMessage) (idx : Nat) :
    Except (Chars × List ChatMessage) (List ChatMessage) :=
  match raws with
  | [] => .ok msgs
  | r :: rs =>
    match processEvent decode r msgs idx with
    | .ok m => processEvents rs m idx
    | .error e => .error (e, msgs)

/-- One iteration of the read loop: append the read to the buffer, split off complete
frames, process them, and keep the dangling remainder buffered. -/
def stepRead (st : Chars × List ChatMessage) (read : Chars) (idx : Nat) :
    Except (Chars × List ChatMessage) (Chars × List ChatMessage) :=
  let p := splitEvents (st.1 ++ read)
  match processEvents decode p.1 st.2 idx with
  | .ok m => .ok (p.2, m)
  | .error e => .error e

/-- The whole `while (true)` read loop over the reads delivered by the transport. -/
def runReads (reads : List Chars) (st : Chars × List ChatMessage) (idx : Nat) :
    Except (Chars × List ChatMessage) (Chars × List ChatMessage) :=
  match reads with
  | [] => .ok st
  | r :: rs =>
    match stepRead decode st r idx with
    | .ok st' => runReads rs st' idx
    | .error e => .error e

end Consumer

/-- Outcome of the transport once all delivered reads are consumed: either the stream
ended cleanly or the connection failed (the rejected promise is caught like any other
failure). -/
inductive StreamOutcome where
  | clean
  | transportFail (msg : Chars)

/-- The component state of the rules page that `handleSend` reads and writes:
`messages`, `input`, `busy`, `error`. -/
structure SessionState where
  messages : List ChatMessage
  input : Chars
  busy : Bool
  error : Option Chars
deriving DecidableEq

/-- The immediate append performed by `handleSend` before any network traffic: the user
message with the trimmed prompt and an empty assistant placeholder. -/
def sendInit (msgs : List ChatMessage) (prompt : Chars) : List ChatMessage :=
  msgs ++ [⟨Role.user, prompt⟩, ⟨Role.assistant, []⟩]

/-- The catch block's placeholder patch: if the assistant placeholder exists and its
content is still empty, set it to `Error: ` followed by the message. -/
def markErrorPlaceholder (msgs : List ChatMessage) (idx : Nat) (msg : Chars) :
    List ChatMessage :=
  match msgs[idx]? with
  | some m =>
    if m.content.isEmpty then msgs.set idx { m with content := "Error: ".toList ++ msg }
    else msgs
  | none => msgs

/-- The whole `handleSend` of `rules/page.tsx`, parameterized by the JSON decoder, the
reads delivered by the transport, and the transport outcome.  An empty trimmed prompt
returns without doing anything; otherwise the user message and assistant placeholder are
appended, the stream is consumed, and a thrown stream error or a transport failure is
caught: the error is surfaced and the still-empty placeholder is marked. -/
def handleSend (decode : Chars → Option StreamEvent) (st : SessionState)
    (reads : List Chars) (outcome : StreamOutcome) : SessionState :=
  let prompt := trimChars st.input
  if prompt.isEmpty then st
  else
    let idx := st.messages.length + 1
    let msgs0 := sendInit st.messages prompt
    match runReads decode reads ([], msgs0) idx with
    | .error em =>
      { messages := markErrorPlaceholder em.2 idx em.1, input := [], busy := false,
        error := some em.1 }
    | .ok st' =>
      match outcome with
      | .clean => { messages := st'.2, input := [], busy := false, error := none }
      | .transportFail msg =>
        { messages := markErrorPlaceholder st'.2 idx msg, input := [], busy := false,
          error := some msg }

/-- The memoized `canSend` of the rules page: not busy and the trimmed input nonempty. -/
def canSend (busy : Bool) (input : Chars) : Bool :=
  !busy && decide (0 < (trimChars input).length)

/-- Abstract UI state for the one-request-at-a-time invariant: `busy` and `input` as on
the page, plus a ghost count of streams currently being consumed. -/
structure UIState where
  busy : Bool
  input : Chars
  inFlight : Nat
deriving DecidableEq

/-- The user-visible ways the session state can change: typing (the input is disabled
while busy), pressing Enter (`handleInputKeyDown` returns unless `canSend`), clicking
the send button (disabled unless `canSend`), and a stream completing (the `finally`
block clearing `busy`). -/
inductive UIAction where
  | typeInput (s : Chars)
  | pressEnter
  | clickSend
  | finishStream

/-- Entering `handleSend` past the guard: `busy` is set, the input is cleared, and one
more stream is being consumed. -/
def startSend (st : UIState) : UIState :=
  { busy := true, input := [], inFlight := st.inFlight + 1 }

/-- One UI transition of the rules page. -/
def uiStep (st : UIState) : UIAction → UIState
  | .typeInput s => if st.busy then st else { st with input := s }
  | .pressEnter => if canSend st.busy st.input then startSend st else st
  | .clickSend => if canSend st.busy st.input then startSend st else st
  | .finishStream =>
    if 0 < st.inFlight then { st with busy := false, inFlight := st.inFlight - 1 }
    else st

/-- The page mounts with no request in flight. -/
def uiInit : UIState := ⟨false, [], 0⟩

/-- Concatenation of the reads delivered by the transport. -/
def joinList (reads : List Chars) : Chars :=
  reads.foldr (· ++ ·) []

/-- The byte stream a correctly framing server produces: every frame followed by the
blank-line delimiter. -/
def wireOfFrames (frames : List Chars) : Chars :=
  frames.foldr (fun f acc => f ++ '\n' :: '\n' :: acc) []

/-- A frame is cleanly delimited when it contains no blank line and does not end in a
newline, so that appending the delimiter creates exactly one frame boundary. -/
def frameOkB (raw : Chars) : Bool :=
  !hasDelim (raw ++ ['\n'])

/-- Observable effect of one complete frame on the consumer. -/
inductive FrameEffect where
  | skip
  | chunkOf (c : Chars)
  | errorOf (e : Chars)
deriving DecidableEq

def FrameEffect.isErr : FrameEffect → Bool
  | .errorOf _ => true
  | _ => false

/-- Classification of a frame by the consumer's handling: skipped (no data line, blank
payload, undecodable payload, or a `start`/`done` event), a chunk append, or a thrown
error. -/
def effectOf (decode : Chars → Option StreamEvent) (raw : Chars) : FrameEffect :=
  match extractPayload raw with
  | none => .skip
  | some payload =>
    if payload.isEmpty then .skip
    else
      match decode payload with
      | none => .skip
      | some (.chunk c) => .chunkOf (jsOr c [])
      | some (.error e) => .errorOf (jsOr e "Chat request failed".toList)
      | some _ => .skip

/-- A malformed frame in the sense of the protocol-error taxonomy: no `data:` line, an
empty payload, or a payload that does not decode. -/
def malformedFrame (decode : Chars → Option StreamEvent) (raw : Chars) : Bool :=
  match extractPayload raw with
  | none => true
  | some payload => payload.isEmpty || (decode payload).isNone

/-- Concatenation, in arrival order, of the chunk contents a frame list carries. -/
def chunkConcat (decode : Chars → Option StreamEvent) : List Chars → Chars
  | [] => []
  | f :: fs =>
    (match effectOf decode f with
      | .chunkOf c => c
      | _ => []) ++ chunkConcat decode fs

/-- The two failure scenarios of a chat exchange: a decoded `error` event frame arriving
after the chunk frames, or a transport failure after the chunk frames. -/
inductive AbortMode where
  | protocolError (raw : Chars) (e : Chars)
  | transport (m : Chars)

/-- The full wire content delivered in a failing exchange. -/
def AbortMode.wire (pre : List Chars) : AbortMode → Chars
  | .protocolError raw _ => wireOfFrames (pre ++ [raw])
  | .transport _ => wireOfFrames pre

/-- The transport outcome in a failing exchange. -/
def AbortMode.outcome : AbortMode → StreamOutcome
  | .protocolError _ _ => .clean
  | .transport m => .transportFail m

/-- The error message the catch block receives in a failing exchange. -/
def AbortMode.msg : AbortMode → Chars
  | .protocolError _ e => e
  | .transport m => m

/-- Well-formedness of a failure scenario: a protocol-error frame must be cleanly
delimited and decode to the claimed error. -/
def AbortMode.okB (decode : Chars → Option StreamEvent) : AbortMode → Bool
  | .protocolError raw e => frameOkB raw && decide (effectOf decode raw = .errorOf e)
  | .transport _ => true

end ChatStream

namespace RuleEditor

/-- One editable condition row of the `RuleEditor` component (`MappingRow`). -/
structure MappingRow where
  key : String
  value : String
deriving DecidableEq

/-- JavaScript `String.prototype.trim` as used by `save`, computed on the character
data so that it evaluates on concrete inputs. -/
def trimStr (s : String) : String :=
  ⟨((s.data.dropWhile Char.isWhitespace).reverse.dropWhile Char.isWhitespace).reverse⟩

/-- A value as stored in the saved payload: JavaScript strings, numbers and booleans.
The number type is abstract (`α`), with the platform's `Number(...)` coercion passed in
as a function. -/
inductive SavedValue (α : Type) where
  | str (s : String)
  | num (x : α)
  | bool (b : Bool)
deriving DecidableEq

/-- The accumulator of the `rows.reduce(...)` in `save`: the built record (a JavaScript
object, i.e. an insertion-ordered map) and the set of duplicate keys seen. -/
structure BuildState (α : Type) where
  rows : List (String × SavedValue α)
  dups : List String
deriving DecidableEq

/-- JavaScript object assignment `acc[key] = v`: overwrite in place if the key is
present, else append. -/
def recordInsert (rows : List (String × SavedValue α)) (k : String) (v : SavedValue α) :
    List (String × SavedValue α) :=
  if rows.any (fun kv => kv.1 = k) then
    rows.map (fun kv => if kv.1 = k then (k, v) else kv)
  else rows ++ [(k, v)]

/-- One step of the reduce in `save`: trim key and value, skip the row if either is
empty, record a duplicate when the key is already present, then assign the (numerically
coerced, for the numeric rule) value. -/
def buildStep (parseNum : String → α) (isNumeric : Bool) (st : BuildState α)
    (row : MappingRow) : BuildState α :=
  let key := trimStr row.key
  let value := trimStr row.value
  if key = "" ∨ value = "" then st
  else
    let dups :=
      if st.rows.any (fun kv => kv.1 = key) then
        if st.dups.contains key then st.dups else st.dups ++ [key]
      else st.dups
    { rows := recordInsert st.rows key
        (if isNumeric then .num (parseNum value) else .str value),
      dups := dups }

/-- The whole reduce of `save` producing `builtRows` and `duplicateKeys`. -/
def buildRows (parseNum : String → α) (isNumeric : Bool) (rows : List MappingRow) :
    BuildState α :=
  rows.foldl (buildStep parseNum isNumeric) ⟨[], []⟩

/-- A row survives the reduce's filter when both its trimmed key and trimmed value are
nonempty. -/
def surviving (r : MappingRow) : Bool :=
  !(trimStr r.key == "") && !(trimStr r.value == "")

/-- The trimmed keys of the surviving rows, in order. -/
def survKeys (rows : List MappingRow) : List String :=
  (rows.filter surviving).map (fun r => trimStr r.key)

def numericConfigKeys : List String :=
  ["customerNamePrefixLength", "invoiceIdPadLength"]

def booleanConfigKeys : List String :=
  ["includeYear", "useInvoiceTotalWithoutDecimals"]

/-- The per-key coercion of the reference-config branch of `save`: named numeric knobs
through `Number(...)`, named boolean knobs through `String(value).toLowerCase() ===
"true"`, everything else through `String(...)`. -/
def configCoerce (parseNum : String → α) (kv : String × SavedValue α) :
    String × SavedValue α :=
  match kv.2 with
  | .str s =>
    if numericConfigKeys.contains kv.1 then (kv.1, .num (parseNum s))
    else if booleanConfigKeys.contains kv.1 then (kv.1, .bool (s.toLower == "true"))
    else (kv.1, .str s)
  | v => (kv.1, v)

/-- The payload handed to `onSave`, per rule shape. -/
inductive SavedPayload (α : Type) where
  | mapping (rows : List (String × SavedValue α))
  | config (rows : List (String × SavedValue α))
  | conditional (dflt : SavedValue α) (conditions : List (String × SavedValue α))
deriving DecidableEq

/-- The condition/mapping entries of a saved payload (the conditional default is kept
separately). -/
def SavedPayload.entries : SavedPayload α → List (String × SavedValue α)
  | .mapping rows => rows
  | .config rows => rows
  | .conditional _ conditions => conditions

/-- The `save` of the `RuleEditor` component: build the rows, throw on duplicate keys
before any write, then hand the shape-appropriate payload to `onSave`.  `.ok` means
`onSave` was invoked with the payload; `.error` means it never was. -/
def save (parseNum : String → α) (numZero : α) (ruleType : String)
    (rows : List MappingRow) (defaultValue : String) : Except String (SavedPayload α) :=
  let isMappingRule := ruleType == "customerNameMapping"
  let isConfigRule := ruleType == "customerReference" || ruleType == "paymentReference"
  let isNumericConditional := ruleType == "deliveryDays"
  let built := buildRows parseNum isNumericConditional rows
  if 0 < built.dups.length then
    .error ("Duplicate keys: " ++ String.intercalate ", " built.dups)
  else if isMappingRule then .ok (.mapping built.rows)
  else if isConfigRule then .ok (.config (built.rows.map (configCoerce parseNum)))
  else
    .ok (.conditional
      (if isNumericConditional then
        .num (if defaultValue = "" then numZero else parseNum defaultValue)
       else .str defaultValue)
      built.rows)

end RuleEditor

namespace SchemaReadiness

/-- A JSON value as stored in schema documents (numeric literals abstracted to
integers; nothing in the readiness computation inspects them). -/
inductive Json where
  | null
  | bool (b : Bool)
  | num (n : Int)
  | str (s : String)
  | arr (xs : List Json)
  | obj (fields : List (String × Json))

/-- `ERPSchemaColumn` of `src/ui/src/lib/types.ts`. -/
structure ERPSchemaColumn where
  default_value : Json
  data_type : String
  description : String
  required : Bool
  rules : List (String × Json)

/-- `SchemaStoreAction` of `src/ui/src/lib/types.ts`. -/
structure SchemaStoreAction where
  enabled : Bool
  action : String
  extra : List (String × Json)

/-- The metadata object of `SchemaStore` in `src/ui/src/lib/types.ts`. -/
structure SchemaMetadata where
  crm_columns : List String
  notification_emails : List String
  erp_system : String
  version : String
  last_updated : String
deriving DecidableEq

/-- `SchemaStore` of `src/ui/src/lib/types.ts`; mappings are modelled as key-value
lists with unique keys within each set. -/
structure SchemaStore where
  erp_schema : List (String × ERPSchemaColumn)
  post_transformation_actions : List (String × SchemaStoreAction)
  metadata : SchemaMetadata

/-- `SchemaStoreStatus` of `src/ui/src/lib/types.ts`. -/
structure SchemaStoreStatus where
  erp_columns_count : Nat
  crm_columns_count : Nat
  notification_emails_count : Nat
  has_erp_columns : Bool
  has_crm_columns : Bool
  has_notification_emails : Bool
  can_use_chat : Bool
deriving DecidableEq

/-- Modelled from the spec: the backend readiness endpoint `GET schema-store/status` is
not in the repository snapshot (only its response type in types.ts and its UI callers
are).  Spec §4.4: a pure projection of the column/email counts of the schema store,
with `can_use_chat` true iff all three counts are at least 1. -/
def status (s : SchemaStore) : SchemaStoreStatus :=
  let erp := s.erp_schema.length
  let crm := s.metadata.crm_columns.length
  let emails := s.metadata.notification_emails.length
  { erp_columns_count := erp
    crm_columns_count := crm
    notification_emails_count := emails
    has_erp_columns := decide (1 ≤ erp)
    has_crm_columns := decide (1 ≤ crm)
    has_notification_emails := decide (1 ≤ emails)
    can_use_chat := decide (1 ≤ erp) && decide (1 ≤ crm) && decide (1 ≤ emails) }

end SchemaReadiness

namespace RulesAI

/-- `RulesAIChange` of `src/ui/src/lib/types.ts`: path plus literal before/after values
(the JSON value type is abstract). -/
structure RuleChange (J : Type) where
  path : String
  before : J
  after : J

/-- What the external instruction-to-rules translator returns (spec §1/§4.5): a summary,
the change list, and the fully materialized updated rules. -/
structure AIProposal (R J : Type) where
  summary : String
  changes : List (RuleChange J)
  updated_rules : R

/-- `RulesAIUpdateResponse` of `src/ui/src/lib/types.ts`. -/
structure AIUpdateResponse (R J : Type) where
  applied : Bool
  summary : String
  changes : List (RuleChange J)
  updated_rules : R

/-- The body posted to `POST rules/ai/update`. -/
structure AIUpdateRequest where
  instruction : String
  apply : Bool
deriving DecidableEq

/-- `previewRulesAIUpdate` of `src/ui/src/lib/api.ts` posts `{instruction, apply: false}`. -/
def previewRulesAIUpdateBody (instruction : String) : AIUpdateRequest :=
  ⟨instruction, false⟩

/-- `applyRulesAIUpdate` of `src/ui/src/lib/api.ts` posts `{instruction, apply: true}`. -/
def applyRulesAIUpdateBody (instruction : String) : AIUpdateRequest :=
  ⟨instruction, true⟩

/-- Modelled from the spec: the `POST rules/ai/update` endpoint is not in the repository
snapshot (only its client in api.ts is).  Spec §4.5/§6: the translator produces
summary, `RuleChange` sequence and materialized `updated_rules`; when `apply` is false
the response is a proposal and the rule store is left untouched, when `apply` is true
the store is atomically replaced by `updated_rules`.  Returns the response together
with the rule store after the call. -/
def rulesAIUpdate (translate : String → R → AIProposal R J) (store : R)
    (req : AIUpdateRequest) : AIUpdateResponse R J × R :=
  let p := translate req.instruction store
  (⟨req.apply, p.summary, p.changes, p.updated_rules⟩,
   if req.apply then p.updated_rules else store)

/-- Modelled from the spec: `GET rules` (spec §6 rule CRUD) returns the stored rule
set. -/
def getRules (store : R) : R := store

end RulesAI

namespace ChatStream

/-- Concrete decoder used to instantiate the abstract JSON decoding in witnesses. -/
def demoDecode : Chars → Option StreamEvent := fun p =>
  if p = "1".toList then some (.chunk (some "Hel".toList))
  else if p = "2".toList then some (.chunk (some "lo, ".toList))
  else if p = "3".toList then some (.chunk (some "world".toList))
  else if p = "E".toList then some (.error (some "boom".toList))
  else none

def demoFrames : List Chars :=
  ["data: 1".toList, "data: 2".toList, "data: 3".toList]

/-- A delivery of the demo frames whose read boundaries do not align with the frame
boundaries. -/
def demoReads : List Chars :=
  ["data".toList, ": 1\n\ndata: 2\n".toList, "\nda".toList, "ta: 3\n\n".toList]

def demoState : SessionState := ⟨[], "hi".toList, false, none⟩

end ChatStream

namespace SchemaReadiness

/-- An example ERP column used in witnesses. -/
def demoColumn : ERPSchemaColumn :=
  { default_value := .null, data_type := "string", description := "", required := false,
    rules := [] }

/-- A schema store with one ERP column, one CRM column and one notification email. -/
def demoStore111 : SchemaStore :=
  { erp_schema := [("invoice_date", demoColumn)]
    post_transformation_actions := []
    metadata := { crm_columns := ["customer_company"], notification_emails := ["a@b.c"],
                  erp_system := "Odoo", version := "1.0.0", last_updated := "" } }

/-- A schema store with one ERP column but no CRM columns and no notification emails. -/
def demoStore100 : SchemaStore :=
  { erp_schema := [("invoice_date", demoColumn)]
    post_transformation_actions := []
    metadata := { crm_columns := [], notification_emails := [],
                  erp_system := "Odoo", version := "1.0.0", last_updated := "" } }

end SchemaReadiness

namespace ChatStream

theorem splitEvents_delim (rest : Chars) :
    splitEvents ('\n' :: '\n' :: rest) = ([] :: (splitEvents rest).1, (splitEvents rest).2) := by
  simp [splitEvents]

theorem splitEvents_nodelim (c d : Char) (rest : Chars) (h : ¬(c = '\n' ∧ d = '\n')) :
    splitEvents (c :: d :: rest) =
      match (splitEvents (d :: rest)).1 with
      | e :: es => ((c :: e) :: es, (splitEvents (d :: rest)).2)
      | [] => ([], c :: (splitEvents (d :: rest)).2) := by
  rw [splitEvents]
  simp only [h, if_false]

theorem splitEvents_fst_nil (s : Chars) (h : (splitEvents s).1 = []) :
    (splitEvents s).2 = s := by
  induction s using splitEvents.induct with
  | case1 => simp [splitEvents]
  | case2 c => simp [splitEvents]
  | case3 c d rest h1 ih =>
    obtain ⟨hc, hd⟩ := h1
    subst hc; subst hd
    rw [splitEvents_delim] at h
    simp at h
  | case4 c d rest h1 p e es hpe ih =>
    have hpe' : (splitEvents (d :: rest)).1 = e :: es := hpe
    rw [splitEvents_nodelim c d rest h1] at h
    simp only [hpe'] at h
    simp at h
  | case5 c d rest h1 p hp ih =>
    have hp' : (splitEvents (d :: rest)).1 = [] := hp
    rw [splitEvents_nodelim c d rest h1]
    simp only [hp']
    simp [ih hp']

theorem splitEvents_append (s t : Chars) :
    splitEvents (s ++ t) =
      ((splitEvents s).1 ++ (splitEvents ((splitEvents s).2 ++ t)).1,
       (splitEvents ((splitEvents s).2 ++ t)).2) := by
  induction s using splitEvents.induct with
  | case1 => simp [splitEvents]
  | case2 c => simp [splitEvents]
  | case3 c d rest h1 ih =>
    obtain ⟨hc, hd⟩ := h1
    subst hc; subst hd
    simp only [List.cons_append, splitEvents_delim, ih]
  | case4 c d rest h1 p e es hpe ih =>
    have hpe' : (splitEvents (d :: rest)).1 = e :: es := hpe
    simp only [List.cons_append] at ih ⊢
    rw [splitEvents_nodelim c d (rest ++ t) h1, ih]
    rw [splitEvents_nodelim c d rest h1]
    simp only [hpe']
    simp
  | case5 c d rest h1 p hp ih =>
    have hp' : (splitEvents (d :: rest)).1 = [] := hp
    have h2 := splitEvents_fst_nil _ hp'
    rw [splitEvents_nodelim c d rest h1]
    simp only [hp', h2]
    simp

theorem splitEvents_of_hasDelim_false (s : Chars) (h : hasDelim s = false) :
    splitEvents s = ([], s) := by
  induction s using hasDelim.induct with
  | case1 => simp [splitEvents]
  | case2 c => simp [splitEvents]
  | case3 c d rest ih =>
    rw [hasDelim] at h
    simp only [Bool.or_eq_false_iff, Bool.and_eq_false_iff, decide_eq_false_iff_not] at h
    have hcd : ¬(c = '\n' ∧ d = '\n') := by
      intro ⟨hc, hd⟩
      rcases h.1 with h' | h' <;> exact h' (by simp [hc, hd])
    rw [splitEvents_nodelim c d rest hcd]
    simp [ih h.2]

theorem hasDelim_splitEvents_snd (s : Chars) : hasDelim (splitEvents s).2 = false := by
  induction s using splitEvents.induct with
  | case1 => simp [splitEvents, hasDelim]
  | case2 c => simp [splitEvents, hasDelim]
  | case3 c d rest h1 ih =>
    obtain ⟨hc, hd⟩ := h1
    subst hc; subst hd
    rw [splitEvents_delim]
    exact ih
  | case4 c d rest h1 p e es hpe ih =>
    have hpe' : (splitEvents (d :: rest)).1 = e :: es := hpe
    rw [splitEvents_nodelim c d rest h1]
    simp only [hpe']
    exact ih
  | case5 c d rest h1 p hp ih =>
    have hp' : (splitEvents (d :: rest)).1 = [] := hp
    have h2 := splitEvents_fst_nil _ hp'
    rw [splitEvents_nodelim c d rest h1]
    simp only [hp', h2]
    rw [hasDelim]
    rw [h2] at ih
    simp only [Bool.or_eq_false_iff, Bool.and_eq_false_iff, decide_eq_false_iff_not]
    constructor
    · by_contra hcontra
      push_neg at hcontra
      exact h1 ⟨hcontra.1, hcontra.2⟩
    · exact ih

theorem splitEvents_frame (f t : Chars) (hf : frameOkB f = true) :
    splitEvents (f ++ '\n' :: '\n' :: t) = (f :: (splitEvents t).1, (splitEvents t).2) := by
  induction f using hasDelim.induct with
  | case1 => simp [splitEvents_delim]
  | case2 c =>
    have hc : ¬c = '\n' := by
      have hf' : hasDelim (c :: '\n' :: []) = false := by simpa [frameOkB] using hf
      simp [hasDelim] at hf'
      exact hf'
    simp only [List.cons_append, List.nil_append]
    rw [splitEvents_nodelim c '\n' ('\n' :: t) (by intro ⟨h1, _⟩; exact hc h1)]
    simp [splitEvents_delim]
  | case3 c d rest ih =>
    simp only [frameOkB, List.cons_append, hasDelim, Bool.not_eq_true',
      Bool.or_eq_false_iff, Bool.and_eq_false_iff, decide_eq_false_iff_not] at hf
    have hcd : ¬(c = '\n' ∧ d = '\n') := by
      intro ⟨h1, h2⟩
      rcases hf.1 with h' | h' <;> [exact h' h1; exact h' h2]
    have ih' := ih (by simpa [frameOkB] using hf.2)
    simp only [List.cons_append] at ih' ⊢
    rw [splitEvents_nodelim c d (rest ++ '\n' :: '\n' :: t) hcd, ih']

theorem splitEvents_wire (frames : List Chars) (h : ∀ f ∈ frames, frameOkB f = true) :
    splitEvents (wireOfFrames frames) = (frames, []) := by
  induction frames with
  | nil => simp [wireOfFrames, splitEvents]
  | cons f fs ih =>
    have hw : wireOfFrames (f :: fs) = f ++ '\n' :: '\n' :: wireOfFrames fs := rfl
    rw [hw, splitEvents_frame f _ (h f (by simp))]
    rw [ih (fun g hg => h g (by simp [hg]))]

theorem processEvent_eq_effect (decode : Chars → Option StreamEvent) (raw : Chars)
    (msgs : List ChatMessage) (idx : Nat) :
    processEvent decode raw msgs idx =
      match effectOf decode raw with
      | .skip => .ok msgs
      | .chunkOf c => .ok (applyChunk msgs idx c)
      | .errorOf e => .error e := by
  rw [processEvent, effectOf]
  cases extractPayload raw with
  | none => rfl
  | some payload =>
    by_cases hp : payload.isEmpty
    · simp [hp]
    · simp only [hp, if_false]
      cases hd : decode payload with
      | none => rfl
      | some ev => cases ev <;> rfl

theorem processEvents_append (decode : Chars → Option StreamEvent) (xs ys : List Chars)
    (msgs : List ChatMessage) (idx : Nat) :
    processEvents decode (xs ++ ys) msgs idx =
      match processEvents decode xs msgs idx with
      | .ok m => processEvents decode ys m idx
      | .error e => .error e := by
  induction xs generalizing msgs with
  | nil => simp [processEvents]
  | cons x xs ih =>
    simp only [List.cons_append, processEvents]
    cases processEvent decode x msgs idx with
    | ok m => exact ih m
    | error e => rfl

theorem applyChunk_at_end (base : List ChatMessage) (prompt acc piece : Chars) :
    applyChunk (base ++ [⟨Role.user, prompt⟩, ⟨Role.assistant, acc⟩]) (base.length + 1)
        piece
      = base ++ [⟨Role.user, prompt⟩, ⟨Role.assistant, acc ++ piece⟩] := by
  have hle : base.length ≤ base.length + 1 := Nat.le_succ _
  rw [applyChunk, List.getElem?_append_right hle]
  simp only [Nat.add_sub_cancel_left, List.getElem?_cons_succ, List.getElem?_cons_zero]
  rw [List.set_append_right _ _ hle]
  simp

theorem processEvents_chunks (decode : Chars → Option StreamEvent) (frames : List Chars)
    (base : List ChatMessage) (prompt acc : Chars)
    (h : ∀ f ∈ frames, (effectOf decode f).isErr = false) :
    processEvents decode frames (base ++ [⟨Role.user, prompt⟩, ⟨Role.assistant, acc⟩])
        (base.length + 1)
      = .ok (base ++ [⟨Role.user, prompt⟩,
          ⟨Role.assistant, acc ++ chunkConcat decode frames⟩]) := by
  induction frames generalizing acc with
  | nil => simp [processEvents, chunkConcat]
  | cons f fs ih =>
    rw [processEvents, processEvent_eq_effect]
    cases heff : effectOf decode f with
    | skip =>
      dsimp only
      rw [chunkConcat, heff]
      simpa using ih acc (fun g hg => h g (by simp [hg]))
    | chunkOf c =>
      dsimp only
      rw [chunkConcat, heff, applyChunk_at_end]
      rw [ih (acc ++ c) (fun g hg => h g (by simp [hg]))]
      simp
    | errorOf e =>
      have := h f (by simp)
      rw [heff] at this
      simp [FrameEffect.isErr] at this

theorem processEvents_error (decode : Chars → Option StreamEvent)
    (pre : List Chars) (raw : Chars) (rest : List Chars)
    (base : List ChatMessage) (prompt acc e : Chars)
    (hpre : ∀ f ∈ pre, (effectOf decode f).isErr = false)
    (hraw : effectOf decode raw = .errorOf e) :
    processEvents decode (pre ++ raw :: rest)
        (base ++ [⟨Role.user, prompt⟩, ⟨Role.assistant, acc⟩]) (base.length + 1)
      = .error (e, base ++ [⟨Role.user, prompt⟩,
          ⟨Role.assistant, acc ++ chunkConcat decode pre⟩]) := by
  rw [processEvents_append]
  rw [processEvents_chunks decode pre base prompt acc hpre]
  dsimp only
  rw [processEvents, processEvent_eq_effect, hraw]

theorem runReads_eq_join (decode : Chars → Option StreamEvent) (reads : List Chars)
    (buf : Chars) (msgs : List ChatMessage) (idx : Nat) (hbuf : hasDelim buf = false) :
    runReads decode reads (buf, msgs) idx =
      match processEvents decode (splitEvents (buf ++ joinList reads)).1 msgs idx with
      | .ok m => .ok ((splitEvents (buf ++ joinList reads)).2, m)
      | .error e => .error e := by
  induction reads generalizing buf msgs with
  | nil =>
    rw [runReads]
    have : buf ++ joinList [] = buf := by simp [joinList]
    rw [this, splitEvents_of_hasDelim_false buf hbuf]
    simp [processEvents]
  | cons r rs ih =>
    rw [runReads, stepRead]
    have hjoin : buf ++ joinList (r :: rs) = (buf ++ r) ++ joinList rs := by
      simp [joinList]
    rw [hjoin, splitEvents_append (buf ++ r) (joinList rs)]
    rw [processEvents_append]
    cases hpe : processEvents decode (splitEvents (buf ++ r)).1 msgs idx with
    | error e => simp
    | ok m =>
      simp only []
      exact ih (splitEvents (buf ++ r)).2 m (hasDelim_splitEvents_snd _)

theorem markErrorPlaceholder_at_end (base : List ChatMessage) (prompt acc msg : Chars) :
    markErrorPlaceholder (base ++ [⟨Role.user, prompt⟩, ⟨Role.assistant, acc⟩])
        (base.length + 1) msg
      = base ++ [⟨Role.user, prompt⟩,
          ⟨Role.assistant, if acc.isEmpty then "Error: ".toList ++ msg else acc⟩] := by
  have hle : base.length ≤ base.length + 1 := Nat.le_succ _
  rw [markErrorPlaceholder, List.getElem?_append_right hle]
  simp only [Nat.add_sub_cancel_left, List.getElem?_cons_succ, List.getElem?_cons_zero]
  by_cases hacc : acc.isEmpty
  · simp only [hacc, if_true]
    rw [List.set_append_right _ _ hle]
    simp
  · simp [hacc]

theorem chunkConcat_append (decode : Chars → Option StreamEvent) (xs ys : List Chars) :
    chunkConcat decode (xs ++ ys) = chunkConcat decode xs ++ chunkConcat decode ys := by
  induction xs with
  | nil => simp [chunkConcat]
  | cons x xs ih =>
    simp only [List.cons_append, chunkConcat, List.append_eq, ih, List.append_assoc]

theorem effectOf_skip_of_malformed (decode : Chars → Option StreamEvent) (raw : Chars)
    (h : malformedFrame decode raw = true) : effectOf decode raw = .skip := by
  rw [effectOf]
  rw [malformedFrame] at h
  cases hcase : extractPayload raw with
  | none => rfl
  | some payload =>
    simp only [hcase] at h
    simp only [Bool.or_eq_true, Option.isNone_iff_eq_none] at h
    by_cases hp : payload.isEmpty
    · simp [hp]
    · rcases h with h | h
      · exact absurd h hp
      · simp [hp, h]

theorem handleSend_clean (decode : Chars → Option StreamEvent) (st : SessionState)
    (frames reads : List Chars)
    (hjoin : joinList reads = wireOfFrames frames)
    (hok : ∀ f ∈ frames, frameOkB f = true)
    (hne : ∀ f ∈ frames, (effectOf decode f).isErr = false)
    (hprompt : (trimChars st.input).isEmpty = false) :
    handleSend decode st reads .clean =
      { messages := st.messages ++ [⟨Role.user, trimChars st.input⟩,
          ⟨Role.assistant, chunkConcat decode frames⟩],
        input := [], busy := false, error := none } := by
  rw [handleSend]
  simp only [hprompt, Bool.false_eq_true, if_false]
  rw [runReads_eq_join decode reads [] _ _ rfl]
  rw [List.nil_append, hjoin, splitEvents_wire frames hok]
  rw [sendInit]
  rw [processEvents_chunks decode frames st.messages (trimChars st.input) [] hne]
  simp

theorem handleSend_abort (decode : Chars → Option StreamEvent) (st : SessionState)
    (pre : List Chars) (mode : AbortMode) (reads : List Chars)
    (hjoin : joinList reads = mode.wire pre)
    (hok : ∀ f ∈ pre, frameOkB f = true)
    (hne : ∀ f ∈ pre, (effectOf decode f).isErr = false)
    (hmode : mode.okB decode = true)
    (hprompt : (trimChars st.input).isEmpty = false) :
    handleSend decode st reads mode.outcome =
      { messages := st.messages ++ [⟨Role.user, trimChars st.input⟩,
          ⟨Role.assistant,
            if (chunkConcat decode pre).isEmpty then "Error: ".toList ++ mode.msg
            else chunkConcat decode pre⟩],
        input := [], busy := false, error := some mode.msg } := by
  cases mode with
  | transport m =>
    rw [handleSend]
    simp only [hprompt, Bool.false_eq_true, if_false]
    rw [runReads_eq_join decode reads [] _ _ rfl]
    rw [List.nil_append]
    rw [show joinList reads = wireOfFrames pre from hjoin]
    rw [splitEvents_wire pre hok]
    rw [sendInit]
    rw [processEvents_chunks decode pre st.messages (trimChars st.input) [] hne]
    dsimp only [AbortMode.outcome, AbortMode.msg]
    rw [List.nil_append]
    rw [markErrorPlaceholder_at_end]
  | protocolError raw e =>
    simp only [AbortMode.okB, Bool.and_eq_true, decide_eq_true_eq] at hmode
    rw [handleSend]
    simp only [hprompt, Bool.false_eq_true, if_false]
    rw [runReads_eq_join decode reads [] _ _ rfl]
    rw [List.nil_append]
    rw [show joinList reads = wireOfFrames (pre ++ [raw]) from hjoin]
    rw [splitEvents_wire (pre ++ [raw]) ?hokall]
    case hokall =>
      intro f hf
      rcases List.mem_append.mp hf with h | h
      · exact hok f h
      · simp only [List.mem_singleton] at h
        subst h
        exact hmode.1
    rw [sendInit]
    rw [processEvents_error decode pre raw [] st.messages (trimChars st.input) [] e hne
      hmode.2]
    dsimp only [AbortMode.outcome, AbortMode.msg]
    rw [List.nil_append]
    rw [markErrorPlaceholder_at_end]

/-- C1: for every sequence of SSE frames delivered across arbitrary read-boundary splits
of the underlying byte stream, the chat stream consumer decodes only complete frames,
buffers incomplete trailing data, and the reconstructed assistant message content equals
the concatenation of all chunk contents: the final session state depends only on the
frames, not on the read boundaries, and the assistant message holds the in-order
concatenation of the chunk contents. -/
theorem c1_streaming_reassembly (decode : Chars → Option StreamEvent) (st : SessionState)
    (frames reads : List Chars)
    (hjoin : joinList reads = wireOfFrames frames)
    (hok : ∀ f ∈ frames, frameOkB f = true)
    (hne : ∀ f ∈ frames, (effectOf decode f).isErr = false)
    (hprompt : (trimChars st.input).isEmpty = false) :
    handleSend decode st reads .clean =
      { messages := st.messages ++ [⟨Role.user, trimChars st.input⟩,
          ⟨Role.assistant, chunkConcat decode frames⟩],
        input := [], busy := false, error := none } :=
  handleSend_clean decode st frames reads hjoin hok hne hprompt

/-- Witness for C1: the chunks `Hel`, `lo, `, `world` delivered across read boundaries
that do not align with frame boundaries reconstruct to `Hello, world`. -/
theorem c1_streaming_reassembly_witness :
    joinList demoReads = wireOfFrames demoFrames ∧
    handleSend demoDecode demoState demoReads .clean =
      { messages := [⟨Role.user, "hi".toList⟩, ⟨Role.assistant, "Hello, world".toList⟩],
        input := [], busy := false, error := none } := by
  refine ⟨by decide, ?_⟩
  rw [c1_streaming_reassembly demoDecode demoState demoFrames demoReads (by decide)
    (by decide) (by decide) (by decide)]
  decide

/-- C5: on a chat stream error (a decoded `error` event or a transport failure), the
session surfaces the error message, sets the placeholder to the error marker only if it
is still empty, preserves all already-appended chunk content, and ends with `busy` off so
the user can resend; no retry happens. -/
theorem c5_stream_error_preserves_chunks (decode : Chars → Option StreamEvent)
    (st : SessionState) (pre : List Chars) (mode : AbortMode) (reads : List Chars)
    (hjoin : joinList reads = mode.wire pre)
    (hok : ∀ f ∈ pre, frameOkB f = true)
    (hne : ∀ f ∈ pre, (effectOf decode f).isErr = false)
    (hmode : mode.okB decode = true)
    (hprompt : (trimChars st.input).isEmpty = false) :
    handleSend decode st reads mode.outcome =
      { messages := st.messages ++ [⟨Role.user, trimChars st.input⟩,
          ⟨Role.assistant,
            if (chunkConcat decode pre).isEmpty then "Error: ".toList ++ mode.msg
            else chunkConcat decode pre⟩],
        input := [], busy := false, error := some mode.msg } :=
  handleSend_abort decode st pre mode reads hjoin hok hne hmode hprompt

/-- Witness for C5: after the chunk `Hel` an error frame arrives; the chunk is kept, the
error is surfaced, and the session is no longer busy. -/
theorem c5_stream_error_witness :
    handleSend demoDecode demoState
        [(AbortMode.protocolError "data: E".toList "boom".toList).wire
          ["data: 1".toList]]
        (AbortMode.protocolError "data: E".toList "boom".toList).outcome =
      { messages := [⟨Role.user, "hi".toList⟩, ⟨Role.assistant, "Hel".toList⟩],
        input := [], busy := false, error := some "boom".toList } := by
  rw [c5_stream_error_preserves_chunks demoDecode demoState ["data: 1".toList]
    (AbortMode.protocolError "data: E".toList "boom".toList) _ (by decide) (by decide)
    (by decide) (by decide) (by decide)]
  decide

/-- C6: a malformed event frame (no `data:` line, empty payload, or invalid JSON) is
skipped and iteration continues: the stream does not abort and all chunks before and
after the bad frame appear in the assistant message. -/
theorem c6_malformed_frame_skipped (decode : Chars → Option StreamEvent)
    (st : SessionState) (pre post : List Chars) (bad : Chars) (reads : List Chars)
    (hjoin : joinList reads = wireOfFrames (pre ++ bad :: post))
    (hok : ∀ f ∈ pre ++ bad :: post, frameOkB f = true)
    (hne : ∀ f ∈ pre ++ post, (effectOf decode f).isErr = false)
    (hbad : malformedFrame decode bad = true)
    (hprompt : (trimChars st.input).isEmpty = false) :
    handleSend decode st reads .clean =
      { messages := st.messages ++ [⟨Role.user, trimChars st.input⟩,
          ⟨Role.assistant, chunkConcat decode pre ++ chunkConcat decode post⟩],
        input := [], busy := false, error := none } := by
  have hskip := effectOf_skip_of_malformed decode bad hbad
  have hne' : ∀ f ∈ pre ++ bad :: post, (effectOf decode f).isErr = false := by
    intro f hf
    rcases List.mem_append.mp hf with h | h
    · exact hne f (List.mem_append.mpr (Or.inl h))
    · rcases List.mem_cons.mp h with h | h
      · subst h; rw [hskip]; rfl
      · exact hne f (List.mem_append.mpr (Or.inr h))
  rw [handleSend_clean decode st (pre ++ bad :: post) reads hjoin hok hne' hprompt]
  have : chunkConcat decode (pre ++ bad :: post)
      = chunkConcat decode pre ++ chunkConcat decode post := by
    rw [chunkConcat_append, chunkConcat, hskip, List.nil_append]
  rw [this]

/-- Witness for C6: a frame with an undecodable payload sits between the `Hel` and
`lo, ` frames; both chunks still arrive. -/
theorem c6_malformed_frame_witness :
    handleSend demoDecode demoState
        [wireOfFrames ["data: 1".toList, "data: zz".toList, "data: 2".toList]] .clean =
      { messages := [⟨Role.user, "hi".toList⟩, ⟨Role.assistant, "Hello, ".toList⟩],
        input := [], busy := false, error := none } := by
  rw [c6_malformed_frame_skipped demoDecode demoState ["data: 1".toList]
    ["data: 2".toList] "data: zz".toList _ (by decide) (by decide) (by decide)
    (by decide) (by decide)]
  decide

/-- C7: on every send of a non-empty prompt, the session immediately appends exactly the
user message and an empty assistant placeholder, and each received chunk's content is
appended to that placeholder in arrival order: after any number of frames the
placeholder holds exactly the in-order concatenation of the chunks received so far. -/
theorem c7_send_appends_then_streams_in_order (decode : Chars → Option StreamEvent)
    (msgs : List ChatMessage) (prompt : Chars) (frames : List Chars) (k : Nat)
    (hne : ∀ f ∈ frames, (effectOf decode f).isErr = false) :
    sendInit msgs prompt = msgs ++ [⟨Role.user, prompt⟩, ⟨Role.assistant, []⟩] ∧
    processEvents decode (frames.take k) (sendInit msgs prompt) (msgs.length + 1)
      = .ok (msgs ++ [⟨Role.user, prompt⟩,
          ⟨Role.assistant, chunkConcat decode (frames.take k)⟩]) := by
  refine ⟨rfl, ?_⟩
  rw [sendInit]
  have h := processEvents_chunks decode (frames.take k) msgs prompt []
    (fun f hf => hne f (List.mem_of_mem_take hf))
  simpa using h

/-- Witness for C7: after the first two of the three demo frames the placeholder holds
exactly `Hello, `. -/
theorem c7_send_appends_witness :
    processEvents demoDecode (demoFrames.take 2) (sendInit [] "hi".toList) 1
      = .ok [⟨Role.user, "hi".toList⟩, ⟨Role.assistant, "Hello, ".toList⟩] := by
  have h := c7_send_appends_then_streams_in_order demoDecode [] "hi".toList demoFrames 2
    (by decide)
  have h2 := h.2
  simp only [List.length_nil] at h2
  rw [h2]
  have hc : chunkConcat demoDecode (demoFrames.take 2) = "Hello, ".toList := by decide
  rw [hc]
  rfl

/-- C9: the session never has two chat requests in flight: from the initial state, any
sequence of UI actions keeps at most one stream being consumed, and while busy both the
Enter-key handler and the send button refuse to start a send. -/
theorem c9_single_request_in_flight (acts : List UIAction) (input : Chars) (n : Nat) :
    (acts.foldl uiStep uiInit).inFlight ≤ 1 ∧
    uiStep ⟨true, input, n⟩ .pressEnter = ⟨true, input, n⟩ ∧
    uiStep ⟨true, input, n⟩ .clickSend = ⟨true, input, n⟩ := by
  refine ⟨?_, by simp [uiStep, canSend], by simp [uiStep, canSend]⟩
  have inv : ∀ (as : List UIAction) (st : UIState),
      st.inFlight = (if st.busy then 1 else 0) →
      (as.foldl uiStep st).inFlight = (if (as.foldl uiStep st).busy then 1 else 0) := by
    intro as
    induction as with
    | nil => intro st h; exact h
    | cons a as ih =>
      intro st h
      apply ih
      cases a with
      | typeInput s => by_cases hb : st.busy = true <;> simp [uiStep, hb, h]
      | pressEnter =>
        by_cases hc : canSend st.busy st.input = true
        · have hb : st.busy = false := by
            rw [canSend, Bool.and_eq_true, Bool.not_eq_true'] at hc
            exact hc.1
          have h0 : st.inFlight = 0 := by rw [hb] at h; simpa using h
          simp [uiStep, hc, startSend, h0]
        · simp [uiStep, hc, h]
      | clickSend =>
        by_cases hc : canSend st.busy st.input = true
        · have hb : st.busy = false := by
            rw [canSend, Bool.and_eq_true, Bool.not_eq_true'] at hc
            exact hc.1
          have h0 : st.inFlight = 0 := by rw [hb] at h; simpa using h
          simp [uiStep, hc, startSend, h0]
        · simp [uiStep, hc, h]
      | finishStream =>
        by_cases hb : st.busy = true
        · have h1 : st.inFlight = 1 := by rw [hb] at h; simpa using h
          simp [uiStep, h1]
        · rw [Bool.not_eq_true] at hb
          have h0 : st.inFlight = 0 := by rw [hb] at h; simpa using h
          simp [uiStep, h0, hb]
  have h := inv acts uiInit (by simp [uiInit])
  rw [h]
  split <;> omega

end ChatStream

namespace RuleEditor

theorem buildStep_skip {α : Type} (parseNum : String → α) (isNumeric : Bool)
    (st : BuildState α) (row : MappingRow)
    (h : trimStr row.key = "" ∨ trimStr row.value = "") :
    buildStep parseNum isNumeric st row = st := by
  rw [buildStep]
  simp only []
  rw [if_pos h]

theorem buildStep_go {α : Type} (parseNum : String → α) (isNumeric : Bool)
    (st : BuildState α) (row : MappingRow)
    (h1 : ¬trimStr row.key = "") (h2 : ¬trimStr row.value = "") :
    buildStep parseNum isNumeric st row =
      { rows := recordInsert st.rows (trimStr row.key)
          (if isNumeric then .num (parseNum (trimStr row.value))
           else .str (trimStr row.value)),
        dups := if st.rows.any (fun kv => kv.1 = trimStr row.key) then
            (if st.dups.contains (trimStr row.key) then st.dups
             else st.dups ++ [trimStr row.key])
          else st.dups } := by
  rw [buildStep]
  simp only []
  rw [if_neg (not_or.mpr ⟨h1, h2⟩)]

theorem recordInsert_forall {α : Type} (Q : String × SavedValue α → Prop)
    (rows : List (String × SavedValue α)) (k : String) (v : SavedValue α)
    (hrows : ∀ kv ∈ rows, Q kv) (hv : Q (k, v)) :
    ∀ kv ∈ recordInsert rows k v, Q kv := by
  rw [recordInsert]
  split
  · intro kv hkv
    rcases List.mem_map.mp hkv with ⟨kv', hkv', heq⟩
    by_cases hk : kv'.1 = k
    · rw [if_pos hk] at heq
      rw [← heq]; exact hv
    · rw [if_neg hk] at heq
      rw [← heq]; exact hrows kv' hkv'
  · intro kv hkv
    rcases List.mem_append.mp hkv with h | h
    · exact hrows kv h
    · simp only [List.mem_singleton] at h
      rw [h]; exact hv

theorem buildFold_forall {α : Type} (parseNum : String → α) (isNumeric : Bool)
    (Q : String × SavedValue α → Prop)
    (hQ : ∀ k v, ¬k = "" → ¬v = "" →
      Q (k, if isNumeric then .num (parseNum v) else .str v))
    (rows : List MappingRow) :
    ∀ st : BuildState α, (∀ kv ∈ st.rows, Q kv) →
      ∀ kv ∈ (rows.foldl (buildStep parseNum isNumeric) st).rows, Q kv := by
  induction rows with
  | nil => intro st h; simpa using h
  | cons r rs ih =>
    intro st h
    rw [List.foldl_cons]
    apply ih
    by_cases h1 : trimStr r.key = ""
    · rw [buildStep_skip _ _ _ _ (Or.inl h1)]; exact h
    · by_cases h2 : trimStr r.value = ""
      · rw [buildStep_skip _ _ _ _ (Or.inr h2)]; exact h
      · rw [buildStep_go _ _ _ _ h1 h2]
        exact recordInsert_forall Q st.rows _ _ h (hQ _ _ h1 h2)

theorem surviving_false_iff (r : MappingRow) :
    surviving r = false ↔ (trimStr r.key = "" ∨ trimStr r.value = "") := by
  rw [surviving]
  constructor
  · intro h
    rcases Bool.and_eq_false_iff.mp h with h | h <;>
      simp only [Bool.not_eq_false', beq_iff_eq] at h
    · exact Or.inl h
    · exact Or.inr h
  · intro h
    rcases h with h | h <;> simp [h]

theorem buildFold_filter {α : Type} (parseNum : String → α) (isNumeric : Bool)
    (rows : List MappingRow) :
    ∀ st : BuildState α,
      (rows.filter surviving).foldl (buildStep parseNum isNumeric) st
        = rows.foldl (buildStep parseNum isNumeric) st := by
  induction rows with
  | nil => intro st; rfl
  | cons r rs ih =>
    intro st
    by_cases hs : surviving r = true
    · rw [List.filter_cons_of_pos hs, List.foldl_cons, List.foldl_cons, ih]
    · have hskip := (surviving_false_iff r).mp (Bool.not_eq_true _ ▸ hs)
      rw [List.filter_cons_of_neg (by simpa using hs), List.foldl_cons,
        buildStep_skip _ _ _ _ hskip, ih]

end RuleEditor

namespace RuleEditor

theorem surviving_true_iff (r : MappingRow) :
    surviving r = true ↔ (¬trimStr r.key = "" ∧ ¬trimStr r.value = "") := by
  rw [surviving]
  simp

theorem survKeys_cons_pos (r : MappingRow) (rs : List MappingRow)
    (h : surviving r = true) : survKeys (r :: rs) = trimStr r.key :: survKeys rs := by
  rw [survKeys, List.filter_cons_of_pos h, List.map_cons, survKeys]

theorem survKeys_cons_neg (r : MappingRow) (rs : List MappingRow)
    (h : surviving r = false) : survKeys (r :: rs) = survKeys rs := by
  rw [survKeys, List.filter_cons_of_neg (by simp [h]), survKeys]

theorem recordInsert_any_self {α : Type} (rows : List (String × SavedValue α))
    (k : String) (v : SavedValue α) :
    (recordInsert rows k v).any (fun kv => kv.1 = k) = true := by
  rw [recordInsert]
  split
  case isTrue h =>
    rcases List.any_eq_true.mp h with ⟨kv, hmem, hkv⟩
    apply List.any_eq_true.mpr
    refine ⟨(k, v), List.mem_map.mpr ⟨kv, hmem, ?_⟩, by simp⟩
    rw [if_pos (by simpa using hkv)]
  case isFalse h =>
    apply List.any_eq_true.mpr
    exact ⟨(k, v), List.mem_append.mpr (Or.inr (by simp)), by simp⟩

theorem recordInsert_key_mono {α : Type} (rows : List (String × SavedValue α))
    (k k' : String) (v : SavedValue α)
    (h : rows.any (fun kv => kv.1 = k') = true) :
    (recordInsert rows k v).any (fun kv => kv.1 = k') = true := by
  rcases List.any_eq_true.mp h with ⟨kv, hmem, hkv⟩
  have hkv' : kv.1 = k' := by simpa using hkv
  rw [recordInsert]
  split
  · apply List.any_eq_true.mpr
    by_cases hx : kv.1 = k
    · refine ⟨(k, v), List.mem_map.mpr ⟨kv, hmem, by rw [if_pos hx]⟩, ?_⟩
      have : k = k' := hx ▸ hkv'
      simp [this]
    · exact ⟨kv, List.mem_map.mpr ⟨kv, hmem, by rw [if_neg hx]⟩, hkv⟩
  · exact List.any_eq_true.mpr ⟨kv, List.mem_append.mpr (Or.inl hmem), hkv⟩

theorem buildStep_dups_mono {α : Type} (parseNum : String → α) (isNumeric : Bool)
    (st : BuildState α) (r : MappingRow) (k : String) (h : k ∈ st.dups) :
    k ∈ (buildStep parseNum isNumeric st r).dups := by
  by_cases h1 : trimStr r.key = ""
  · rw [buildStep_skip _ _ _ _ (Or.inl h1)]; exact h
  · by_cases h2 : trimStr r.value = ""
    · rw [buildStep_skip _ _ _ _ (Or.inr h2)]; exact h
    · rw [buildStep_go _ _ _ _ h1 h2]
      simp only []
      split
      · split
        · exact h
        · exact List.mem_append.mpr (Or.inl h)
      · exact h

theorem buildStep_keys_mono {α : Type} (parseNum : String → α) (isNumeric : Bool)
    (st : BuildState α) (r : MappingRow) (k : String)
    (h : st.rows.any (fun kv => kv.1 = k) = true) :
    (buildStep parseNum isNumeric st r).rows.any (fun kv => kv.1 = k) = true := by
  by_cases h1 : trimStr r.key = ""
  · rw [buildStep_skip _ _ _ _ (Or.inl h1)]; exact h
  · by_cases h2 : trimStr r.value = ""
    · rw [buildStep_skip _ _ _ _ (Or.inr h2)]; exact h
    · rw [buildStep_go _ _ _ _ h1 h2]
      exact recordInsert_key_mono _ _ _ _ h

theorem buildFold_dups_mono {α : Type} (parseNum : String → α) (isNumeric : Bool)
    (rows : List MappingRow) :
    ∀ (st : BuildState α) (k : String), k ∈ st.dups →
      k ∈ (rows.foldl (buildStep parseNum isNumeric) st).dups := by
  induction rows with
  | nil => intro st k h; simpa using h
  | cons r rs ih =>
    intro st k h
    rw [List.foldl_cons]
    exact ih _ k (buildStep_dups_mono _ _ _ _ _ h)

theorem buildFold_dup_of_present {α : Type} (parseNum : String → α) (isNumeric : Bool)
    (rows : List MappingRow) :
    ∀ (st : BuildState α) (k : String),
      st.rows.any (fun kv => kv.1 = k) = true → k ∈ survKeys rows →
      k ∈ (rows.foldl (buildStep parseNum isNumeric) st).dups := by
  induction rows with
  | nil => intro st k _ hk; simp [survKeys] at hk
  | cons r rs ih =>
    intro st k hpresent hk
    rw [List.foldl_cons]
    by_cases hs : surviving r = true
    · have hsp := (surviving_true_iff r).mp hs
      rw [survKeys_cons_pos r rs hs] at hk
      rcases List.mem_cons.mp hk with hk | hk
      · subst hk
        apply buildFold_dups_mono
        rw [buildStep_go _ _ _ _ hsp.1 hsp.2]
        simp only []
        rw [if_pos hpresent]
        split
        next hc => exact List.mem_of_elem_eq_true hc
        next hc => exact List.mem_append.mpr (Or.inr (by simp))
      · exact ih _ k (buildStep_keys_mono _ _ _ _ _ hpresent) hk
    · have hs' : surviving r = false := by simpa using hs
      rw [survKeys_cons_neg r rs hs'] at hk
      have hsk := (surviving_false_iff r).mp hs'
      rw [buildStep_skip _ _ _ _ hsk]
      exact ih _ k hpresent hk

theorem buildFold_dup_of_count {α : Type} (parseNum : String → α) (isNumeric : Bool)
    (rows : List MappingRow) :
    ∀ (st : BuildState α) (k : String), 2 ≤ (survKeys rows).count k →
      k ∈ (rows.foldl (buildStep parseNum isNumeric) st).dups := by
  induction rows with
  | nil => intro st k h; simp [survKeys] at h
  | cons r rs ih =>
    intro st k h
    rw [List.foldl_cons]
    by_cases hs : surviving r = true
    · have hsp := (surviving_true_iff r).mp hs
      rw [survKeys_cons_pos r rs hs, List.count_cons] at h
      by_cases hk : trimStr r.key = k
      · have hcount : 1 ≤ (survKeys rs).count k := by
          rw [if_pos (by simpa using hk)] at h
          omega
        have hmem : k ∈ survKeys rs := List.count_pos_iff.mp hcount
        apply buildFold_dup_of_present
        · rw [buildStep_go _ _ _ _ hsp.1 hsp.2]
          simp only []
          rw [hk]
          exact recordInsert_any_self _ _ _
        · exact hmem
      · rw [if_neg (by simpa using hk)] at h
        exact ih _ k (by omega)
    · have hs' : surviving r = false := by simpa using hs
      rw [survKeys_cons_neg r rs hs'] at h
      have hsk := (surviving_false_iff r).mp hs'
      rw [buildStep_skip _ _ _ _ hsk]
      exact ih _ k h

end RuleEditor

namespace RuleEditor

theorem save_error_of_dups_pos {α : Type} (parseNum : String → α) (numZero : α)
    (ruleType : String) (rows : List MappingRow) (defaultValue : String)
    (hd : 0 < (buildRows parseNum (ruleType == "deliveryDays") rows).dups.length) :
    save parseNum numZero ruleType rows defaultValue
      = .error ("Duplicate keys: " ++ String.intercalate ", "
          (buildRows parseNum (ruleType == "deliveryDays") rows).dups) := by
  rw [save]
  rw [if_pos hd]

theorem save_ok_conditional {α : Type} (parseNum : String → α) (numZero : α)
    (ruleType : String) (rows : List MappingRow) (defaultValue : String)
    (hm : (ruleType == "customerNameMapping") = false)
    (hc1 : (ruleType == "customerReference") = false)
    (hc2 : (ruleType == "paymentReference") = false)
    (hd : ¬0 < (buildRows parseNum (ruleType == "deliveryDays") rows).dups.length) :
    save parseNum numZero ruleType rows defaultValue
      = .ok (.conditional
          (if (ruleType == "deliveryDays") = true then
            SavedValue.num (if defaultValue = "" then numZero else parseNum defaultValue)
           else .str defaultValue)
          (buildRows parseNum (ruleType == "deliveryDays") rows).rows) := by
  rw [save]
  simp only [hm, hc1, hc2, Bool.or_self, Bool.false_or]
  rw [if_neg hd]
  simp only [Bool.false_eq_true, if_false]

theorem configCoerce_preserves {α : Type} (parseNum : String → α)
    (k : String) (v : SavedValue α) (h1 : ¬k = "") (h2 : ¬v = SavedValue.str "") :
    ¬(configCoerce parseNum (k, v)).1 = ""
      ∧ ¬(configCoerce parseNum (k, v)).2 = SavedValue.str "" := by
  cases v with
  | str s =>
    have hs : ¬s = "" := fun h0 => h2 (by rw [h0])
    rw [configCoerce]
    dsimp only
    split
    · exact ⟨h1, by simp⟩
    · split
      · exact ⟨h1, by simp⟩
      · exact ⟨h1, by simp [hs]⟩
  | num x =>
    rw [configCoerce]
    exact ⟨h1, by simp⟩
  | bool b =>
    rw [configCoerce]
    exact ⟨h1, by simp⟩

end RuleEditor

namespace RuleEditor

/-- Counterexample to C4 as stated: the condition rows contain the key `a` twice, but
because the first row's value is blank it is filtered out before duplicate detection, so
`save` succeeds and `onSave` receives the payload instead of a validation error being
raised. -/
theorem c4_counterexample_duplicate_key_saved :
    ([⟨"a", ""⟩, ⟨"a", "1"⟩] : List MappingRow).map MappingRow.key = ["a", "a"] ∧
    save (fun _ => (0 : Int)) 0 "salesTaxRate" [⟨"a", ""⟩, ⟨"a", "1"⟩] "d"
      = .ok (.conditional (.str "d") [("a", .str "1")]) :=
  ⟨rfl, rfl⟩

/-- C4 (amended): saving a rule edit whose condition rows contain two identical trimmed
keys among the rows that survive the blank filter (trimmed key and trimmed value both
non-empty) fails with a validation error before any write: `save` returns an error and
`onSave` is never invoked. -/
theorem c4_duplicate_surviving_keys_rejected {α : Type} (parseNum : String → α)
    (numZero : α) (ruleType : String) (rows : List MappingRow) (defaultValue : String)
    (k : String) (hk : 2 ≤ (survKeys rows).count k) :
    ∃ msg, save parseNum numZero ruleType rows defaultValue = .error msg := by
  have hdup : k ∈ (buildRows parseNum (ruleType == "deliveryDays") rows).dups :=
    buildFold_dup_of_count parseNum (ruleType == "deliveryDays") rows ⟨[], []⟩ k hk
  exact ⟨_, save_error_of_dups_pos parseNum numZero ruleType rows defaultValue
    (List.length_pos.mpr (List.ne_nil_of_mem hdup))⟩

/-- Witness for the amended C4: two surviving rows share the key `a` and the save is
rejected. -/
theorem c4_duplicate_rejected_witness :
    2 ≤ (survKeys [⟨"a", "1"⟩, ⟨"a", "2"⟩]).count "a" ∧
    ∃ msg, save (fun _ => (0 : Int)) 0 "salesTaxRate" [⟨"a", "1"⟩, ⟨"a", "2"⟩] "d"
      = .error msg :=
  ⟨by decide,
   c4_duplicate_surviving_keys_rejected (fun _ => (0 : Int)) 0 "salesTaxRate"
     [⟨"a", "1"⟩, ⟨"a", "2"⟩] "d" "a" (by decide)⟩

/-- C8: when the numeric-typed conditional rule `deliveryDays` is saved, every retained
condition value and the default value are coerced to numbers, so the saved payload
contains only numeric condition values and a numeric default; a string-typed conditional
rule such as `salesTaxRate` keeps string values. -/
theorem c8_numeric_rule_saves_numbers {α : Type} (parseNum : String → α) (numZero : α)
    (rows : List MappingRow) (defaultValue : String) :
    (∀ payload, save parseNum numZero "deliveryDays" rows defaultValue = .ok payload →
      (∃ x, payload = .conditional (.num x) payload.entries) ∧
      ∀ kv ∈ payload.entries, ∃ x, kv.2 = SavedValue.num x) ∧
    (∀ payload, save parseNum numZero "salesTaxRate" rows defaultValue = .ok payload →
      payload = .conditional (.str defaultValue) payload.entries ∧
      ∀ kv ∈ payload.entries, ∃ s, kv.2 = SavedValue.str s) := by
  constructor
  · intro payload h
    by_cases hd : 0 < (buildRows parseNum ("deliveryDays" == "deliveryDays") rows).dups.length
    · rw [save_error_of_dups_pos _ _ _ _ _ hd] at h
      exact absurd h (by simp)
    · rw [save_ok_conditional _ _ _ _ _ (by rfl) (by rfl) (by rfl) hd] at h
      have hpl := Except.ok.inj h
      subst hpl
      constructor
      · exact ⟨_, by rw [SavedPayload.entries]; rw [if_pos (by rfl)]⟩
      · rw [SavedPayload.entries]
        intro kv hkv
        have hq := buildFold_forall parseNum ("deliveryDays" == "deliveryDays")
          (fun kv => ∃ x, kv.2 = SavedValue.num x) ?_ rows ⟨[], []⟩ (by simp) kv hkv
        · exact hq
        · intro k v _ _
          rw [if_pos (by rfl)]
          exact ⟨parseNum v, rfl⟩
  · intro payload h
    by_cases hd : 0 < (buildRows parseNum ("salesTaxRate" == "deliveryDays") rows).dups.length
    · rw [save_error_of_dups_pos _ _ _ _ _ hd] at h
      exact absurd h (by simp)
    · rw [save_ok_conditional _ _ _ _ _ (by rfl) (by rfl) (by rfl) hd] at h
      have hpl := Except.ok.inj h
      subst hpl
      constructor
      · rw [SavedPayload.entries]
        rw [if_neg (by simp)]
      · rw [SavedPayload.entries]
        intro kv hkv
        have hq := buildFold_forall parseNum ("salesTaxRate" == "deliveryDays")
          (fun kv => ∃ s, kv.2 = SavedValue.str s) ?_ rows ⟨[], []⟩ (by simp) kv hkv
        · exact hq
        · intro k v _ _
          rw [if_neg (by simp)]
          exact ⟨v, rfl⟩

/-- Witness for C8: saving `deliveryDays` with one condition row produces a numeric
default and a numeric condition value. -/
theorem c8_numeric_rule_witness :
    (∃ x, (SavedPayload.conditional (SavedValue.num (7 : Int)) [("UK", SavedValue.num 7)])
      = .conditional (.num x)
          (SavedPayload.conditional (SavedValue.num (7 : Int))
            [("UK", SavedValue.num 7)]).entries) ∧
    ∀ kv ∈ (SavedPayload.conditional (SavedValue.num (7 : Int))
        [("UK", SavedValue.num 7)]).entries, ∃ x, kv.2 = SavedValue.num x :=
  (c8_numeric_rule_saves_numbers (fun _ => (7 : Int)) 0 [⟨"UK", "5"⟩] "3").1
    (.conditional (.num 7) [("UK", .num 7)]) (by rfl)

/-- C10: any condition row whose trimmed key or trimmed value is empty is silently
omitted from the saved rule (saving filtered rows is identical to saving the raw rows),
and every entry that is written has a non-empty key and is never the explicit empty
string; in particular duplicate-key detection only sees the surviving rows. -/
theorem c10_blank_rows_omitted {α : Type} (parseNum : String → α) (numZero : α)
    (ruleType : String) (rows : List MappingRow) (defaultValue : String) :
    save parseNum numZero ruleType rows defaultValue
      = save parseNum numZero ruleType (rows.filter surviving) defaultValue ∧
    ∀ payload, save parseNum numZero ruleType rows defaultValue = .ok payload →
      ∀ kv ∈ payload.entries, ¬kv.1 = "" ∧ ¬kv.2 = SavedValue.str "" := by
  have hfimp : buildRows parseNum (ruleType == "deliveryDays") (rows.filter surviving)
      = buildRows parseNum (ruleType == "deliveryDays") rows :=
    buildFold_filter _ _ rows ⟨[], []⟩
  have hq : ∀ kv ∈ (buildRows parseNum (ruleType == "deliveryDays") rows).rows,
      ¬kv.1 = "" ∧ ¬kv.2 = SavedValue.str "" := by
    apply buildFold_forall parseNum (ruleType == "deliveryDays")
      (fun kv => ¬kv.1 = "" ∧ ¬kv.2 = SavedValue.str "") ?_ rows ⟨[], []⟩ (by simp)
    intro k v hk hv
    refine ⟨hk, ?_⟩
    split
    · simp
    · simp [hv]
  constructor
  · rw [save, save, hfimp]
  · intro payload h
    rw [save] at h
    split at h
    · exact absurd h (by simp)
    · split at h
      · have hpl := Except.ok.inj h
        subst hpl
        rw [SavedPayload.entries]
        exact hq
      · split at h
        · have hpl := Except.ok.inj h
          subst hpl
          rw [SavedPayload.entries]
          intro kv hkv
          rcases List.mem_map.mp hkv with ⟨kv', hkv', heq⟩
          have := configCoerce_preserves parseNum kv'.1 kv'.2 (hq kv' hkv').1
            (hq kv' hkv').2
          rw [← heq]
          simpa using this
        · have hpl := Except.ok.inj h
          subst hpl
          rw [SavedPayload.entries]
          exact hq

/-- Witness for C10: a row with a blank value is omitted, so saving the raw rows equals
saving the filtered rows, and the surviving entry is non-empty. -/
theorem c10_blank_rows_witness :
    save (fun _ => (0 : Int)) 0 "salesTaxRate" [⟨"a", ""⟩, ⟨"b", "1"⟩] "d"
      = save (fun _ => (0 : Int)) 0 "salesTaxRate"
          (([⟨"a", ""⟩, ⟨"b", "1"⟩] : List MappingRow).filter surviving) "d" ∧
    ∀ kv ∈ (SavedPayload.conditional (SavedValue.str "d")
        [("b", SavedValue.str "1")] : SavedPayload Int).entries,
      ¬kv.1 = "" ∧ ¬kv.2 = SavedValue.str "" :=
  ⟨(c10_blank_rows_omitted (fun _ => (0 : Int)) 0 "salesTaxRate"
      [⟨"a", ""⟩, ⟨"b", "1"⟩] "d").1,
   (c10_blank_rows_omitted (fun _ => (0 : Int)) 0 "salesTaxRate"
      [⟨"a", ""⟩, ⟨"b", "1"⟩] "d").2
     (.conditional (.str "d") [("b", .str "1")]) (by rfl)⟩

end RuleEditor

namespace SchemaReadiness

/-- C2: the readiness status contains the ERP/CRM/notification-email counts and
`can_use_chat`, and for every schema state `can_use_chat` is true if and only if all
three counts are at least 1. -/
theorem c2_can_use_chat_iff_counts (s : SchemaStore) :
    (status s).can_use_chat = true ↔
      1 ≤ (status s).erp_columns_count ∧
      1 ≤ (status s).crm_columns_count ∧
      1 ≤ (status s).notification_emails_count := by
  simp [status, Bool.and_eq_true, decide_eq_true_eq, and_assoc]

/-- Witness for C2: counts one/one/one unlock chat; counts one/zero/zero keep it
locked. -/
theorem c2_can_use_chat_witness :
    (status demoStore111).can_use_chat = true ∧
    ¬(status demoStore100).can_use_chat = true := by
  constructor
  · exact (c2_can_use_chat_iff_counts demoStore111).mpr (by decide)
  · intro h
    have h2 := (c2_can_use_chat_iff_counts demoStore100).mp h
    exact absurd h2.2.1 (by decide)

end SchemaReadiness

namespace RulesAI

/-- C3: calling the rule-mutation endpoint with `apply = false` (as the api.ts preview
client does) returns a proposal whose summary, changes and materialized updated rules
come from the translator, reports `applied = false`, and leaves the stored rule set
unchanged: a subsequent GET of the rules returns the same rule set as before the
call. -/
theorem c3_preview_leaves_rules_unchanged {R J : Type}
    (translate : String → R → AIProposal R J) (store : R) (instruction : String) :
    (rulesAIUpdate translate store (previewRulesAIUpdateBody instruction)).1.applied
        = false ∧
    (rulesAIUpdate translate store (previewRulesAIUpdateBody instruction)).1.summary
        = (translate instruction store).summary ∧
    (rulesAIUpdate translate store (previewRulesAIUpdateBody instruction)).1.changes
        = (translate instruction store).changes ∧
    (rulesAIUpdate translate store (previewRulesAIUpdateBody instruction)).1.updated_rules
        = (translate instruction store).updated_rules ∧
    getRules (rulesAIUpdate translate store (previewRulesAIUpdateBody instruction)).2
        = getRules store :=
  ⟨rfl, rfl, rfl, rfl, rfl⟩

end RulesAI
